import Mathlib

/-!
Verification of the payment engine in `src/main.rs`.

The program replays a sequence of transactions (deposit, withdrawal,
dispute, resolve, chargeback) over per-client accounts. We embed it
shallowly:

* `rust_decimal::Decimal` values become exact rationals (`ℚ`); all the
  arithmetic the program performs on them is addition and subtraction,
  which `Decimal` carries out exactly.
* the two `HashMap`s (`records : HashMap<u32, Record>`,
  `clients : HashMap<u16, Client>`) become functions `Nat → Option _`,
  with `insert` as pointwise update (last write wins, as in the code).
* a Rust panic (`Option::unwrap` on `None`, reachable from the trailing
  debug `println!` of `withdraw_from_account`) and `process::exit` are
  modelled by an `Option`-valued step: `none` means the run aborts.
-/

namespace PaymentEngine

/-- `struct Record` from src/main.rs: a ledger entry. -/
structure Record where
  transaction_type : String
  client_id : Nat
  amount : ℚ
  disputed : Bool
  locked : Bool
deriving DecidableEq

/-- `struct Client` from src/main.rs: a per-client account. -/
structure Client where
  client_id : Nat
  available : ℚ
  held : ℚ
  total : ℚ
  locked : Bool
deriving DecidableEq

/-- The ledger `records : HashMap<u32, Record>`. -/
abbrev Ledger := Nat → Option Record

/-- The account book `clients : HashMap<u16, Client>`. -/
abbrev Clients := Nat → Option Client

/-- `HashMap::insert`: point update, overwriting any previous entry. -/
def insertFn {β : Type} (m : Nat → Option β) (k : Nat) (v : β) : Nat → Option β :=
  fun q => if q = k then some v else m q

/-- `fn deposit_to_account`, the mutation of `clients` only (the body of
the `match clients.get_mut(...)`): credit an unlocked existing account,
silently ignore the amount on a locked one, create the account on first
deposit. -/
def deposit_core (clients : Clients) (record : Record) : Clients :=
  match clients record.client_id with
  | some x =>
      if x.locked = false then
        insertFn clients record.client_id
          { x with available := x.available + record.amount,
                   total := x.total + record.amount }
      else clients
  | none =>
      insertFn clients record.client_id
        { client_id := record.client_id, available := record.amount, held := 0,
          total := record.amount, locked := false }

/-- `fn deposit_to_account` including its trailing debug `println!`,
which unwraps `clients.get(&record.client_id)`; `none` models a panic. -/
def deposit_to_account (clients : Clients) (record : Record) : Option Clients :=
  let clients1 := deposit_core clients record
  match clients1 record.client_id with
  | some _ => some clients1
  | none => none

/-- `fn withdraw_from_account`, the mutation of `clients` only: debit when
`available > amount && !locked` (strict `>`), otherwise set
`locked = true`; no-op when the client does not exist. -/
def withdraw_core (clients : Clients) (record : Record) : Clients :=
  match clients record.client_id with
  | some x =>
      if record.amount < x.available ∧ x.locked = false then
        insertFn clients record.client_id
          { x with available := x.available - record.amount,
                   total := x.total - record.amount }
      else
        insertFn clients record.client_id { x with locked := true }
  | none => clients

/-- `fn withdraw_from_account` including its trailing debug `println!`,
which unwraps `clients.get(&record.client_id)`; for a nonexistent client
that lookup is `None` and the unwrap panics, modelled by `none`. -/
def withdraw_from_account (clients : Clients) (record : Record) : Option Clients :=
  let clients1 := withdraw_core clients record
  match clients1 record.client_id with
  | some _ => some clients1
  | none => none

/-- `fn submit_dispute`: move the referenced deposit's amount from
`available` to `held` and mark the record disputed; every failed check
leaves both maps untouched. -/
def submit_dispute (clients : Clients) (records : Ledger)
    (transaction_id : Nat) (client_id : Nat) : Clients × Ledger :=
  match records transaction_id with
  | none => (clients, records)
  | some record =>
    if client_id = record.client_id then
      if record.transaction_type = "deposit" then
        match clients record.client_id with
        | some x =>
            if record.disputed = false ∧ record.locked = false then
              (insertFn clients record.client_id
                 { x with available := x.available - record.amount,
                          held := x.held + record.amount },
               insertFn records transaction_id { record with disputed := true })
            else (clients, records)
        | none => (clients, records)
      else (clients, records)
    else (clients, records)

/-- `fn resolve_dispute`: move the amount of a disputed deposit back from
`held` to `available` and clear the disputed flag. -/
def resolve_dispute (clients : Clients) (records : Ledger)
    (transaction_id : Nat) (client_id : Nat) : Clients × Ledger :=
  match records transaction_id with
  | none => (clients, records)
  | some record =>
    if client_id = record.client_id then
      if record.transaction_type = "deposit" then
        match clients record.client_id with
        | some x =>
            if record.disputed = true then
              (insertFn clients record.client_id
                 { x with available := x.available + record.amount,
                          held := x.held - record.amount },
               insertFn records transaction_id { record with disputed := false })
            else (clients, records)
        | none => (clients, records)
      else (clients, records)
    else (clients, records)

/-- `fn issue_chargeback`: remove the amount of a disputed deposit from
`held` and `total`, lock the account, and mark the record
`disputed = false, locked = true`. -/
def issue_chargeback (clients : Clients) (records : Ledger)
    (transaction_id : Nat) (client_id : Nat) : Clients × Ledger :=
  match records transaction_id with
  | none => (clients, records)
  | some record =>
    if client_id = record.client_id then
      if record.transaction_type = "deposit" then
        match clients record.client_id with
        | some x =>
            if record.disputed = true then
              (insertFn clients record.client_id
                 { x with total := x.total - record.amount,
                          held := x.held - record.amount,
                          locked := true },
               insertFn records transaction_id
                 { record with disputed := false, locked := true })
            else (clients, records)
        | none => (clients, records)
      else (clients, records)
    else (clients, records)

/-- One parsed CSV row `(type, client, tx, amount)`. The `amount` column
is only read for deposit/withdrawal rows. -/
structure InputRow where
  transaction_type : String
  client_id : Nat
  transaction_id : Nat
  amount : ℚ

/-- The mutable state of `open_and_read_csv`: the two hash maps. -/
structure EngineState where
  records : Ledger
  clients : Clients

/-- The state before the first row: both maps empty. -/
def initState : EngineState := ⟨fun _ => none, fun _ => none⟩

/-- The body of the `for result in rdr.records()` loop of
`open_and_read_csv`: insert deposit/withdrawal rows into the ledger
(before dispatch, unconditionally), then dispatch on the type tag.
`none` models a panic or `process::exit` (unknown type tag, or the
unwrap failure of `withdraw_from_account`). -/
def processRow (s : EngineState) (row : InputRow) : Option EngineState :=
  let records :=
    if row.transaction_type = "deposit" ∨ row.transaction_type = "withdrawal" then
      insertFn s.records row.transaction_id
        { transaction_type := row.transaction_type, client_id := row.client_id,
          amount := row.amount, disputed := false, locked := false }
    else s.records
  if row.transaction_type = "deposit" then
    match records row.transaction_id with
    | some r => (deposit_to_account s.clients r).map (fun c => ⟨records, c⟩)
    | none => none
  else if row.transaction_type = "withdrawal" then
    match records row.transaction_id with
    | some r => (withdraw_from_account s.clients r).map (fun c => ⟨records, c⟩)
    | none => none
  else if row.transaction_type = "dispute" then
    let p := submit_dispute s.clients records row.transaction_id row.client_id
    some ⟨p.2, p.1⟩
  else if row.transaction_type = "resolve" then
    let p := resolve_dispute s.clients records row.transaction_id row.client_id
    some ⟨p.2, p.1⟩
  else if row.transaction_type = "chargeback" then
    let p := issue_chargeback s.clients records row.transaction_id row.client_id
    some ⟨p.2, p.1⟩
  else none

/-- The whole loop of `open_and_read_csv`: rows in file order; a panic or
exit anywhere aborts the run. -/
def processRows (s : EngineState) : List InputRow → Option EngineState
  | [] => some s
  | row :: rest =>
    match processRow s row with
    | some s1 => processRows s1 rest
    | none => none

/-! ## Claim theorems -/

/-- Input row used to settle C3: a withdrawal for client 1 arriving
before any deposit has created an account for client 1. -/
def c3Row : InputRow := ⟨"withdrawal", 1, 1, 1⟩

/-- C3 (refuted: the code aborts). A withdrawal whose client has no
account leaves the account book untouched (the `None` arm of
`withdraw_from_account` does nothing), but the trailing debug `println!`
then unwraps `clients.get(&record.client_id)`, which is `None`, so the
process panics instead of continuing with the next record: the handler
and the whole loop step return `none` (abort). -/
theorem c3_withdrawal_without_account_panics :
    withdraw_from_account initState.clients ⟨"withdrawal", 1, 1, false, false⟩ = none ∧
    processRow initState c3Row = none := by
  constructor <;> rfl

/-- Input rows used to settle C8: deposit 5.0 (tx 1), withdraw 3.0
(tx 2), then dispute tx 1. -/
def c8Rows : List InputRow :=
  [⟨"deposit", 1, 1, 5⟩, ⟨"withdrawal", 1, 2, 3⟩, ⟨"dispute", 1, 1, 0⟩]

/-- C8: a successful dispute does not require `available` to cover the
disputed amount. After deposit 5, withdrawal 3 and a dispute of the
deposit, the dispute has succeeded (the record is marked disputed) and
the account reads available = -3, held = 5, total = 2, with -3 < 0. -/
theorem c8_dispute_drives_available_negative :
    (processRows initState c8Rows).map
        (fun s => (s.clients 1, (s.records 1).map (fun r => r.disputed))) =
      some (some ⟨1, -3, 5, 2, false⟩, some true) ∧ (-3 : ℚ) < 0 := by
  constructor
  · norm_num +decide [processRows, processRow, deposit_to_account, deposit_core,
      withdraw_from_account, withdraw_core, submit_dispute, resolve_dispute,
      issue_chargeback, insertFn, initState, c8Rows]
  · norm_num

/-- Input rows used to settle C9, first phase: deposit, dispute,
chargeback (locking the account), then a deposit on the locked account. -/
def c9Prefix : List InputRow :=
  [⟨"deposit", 1, 1, 5⟩, ⟨"dispute", 1, 1, 0⟩, ⟨"chargeback", 1, 1, 0⟩,
   ⟨"deposit", 1, 2, 2⟩]

/-- Input rows used to settle C9, second phase: additionally dispute the
deposit that was ignored because the account was locked. -/
def c9Rows : List InputRow := c9Prefix ++ [⟨"dispute", 1, 2, 0⟩]

/-- C9: a deposit whose balance effect is ignored because the account is
locked is still recorded in the ledger as an undisputed, unlocked
deposit (tx 2 below, while the account stays at 0/0/0 locked), and a
subsequent dispute of it succeeds, driving `available` to -2 and `held`
to 2 even though the 2 was never credited. -/
theorem c9_locked_deposit_still_recorded_and_disputable :
    (processRows initState c9Prefix).map
        (fun s => (s.records 2, s.clients 1)) =
      some (some ⟨"deposit", 1, 2, false, false⟩, some ⟨1, 0, 0, 0, true⟩) ∧
    (processRows initState c9Rows).map
        (fun s => ((s.records 2).map (fun r => r.disputed), s.clients 1)) =
      some (some true, some ⟨1, -2, 2, 0, true⟩) := by
  constructor <;>
    norm_num +decide [processRows, processRow, deposit_to_account, deposit_core,
      withdraw_from_account, withdraw_core, submit_dispute, resolve_dispute,
      issue_chargeback, insertFn, initState, c9Prefix, c9Rows]

/-- C2: on an existing account, a withdrawal succeeds exactly when
`available > amount` (strict) and the account is unlocked, debiting
`available` and `total` by the amount; on any failure — including the
boundary case `available == amount`, which falls into the `else` branch
— the balances are untouched and the account is (re)locked. -/
theorem c2_withdrawal_strict_and_punitive_lock (clients : Clients) (record : Record)
    (x : Client) (h : clients record.client_id = some x) :
    withdraw_from_account clients record =
      some (insertFn clients record.client_id
        (if record.amount < x.available ∧ x.locked = false then
          { x with available := x.available - record.amount,
                   total := x.total - record.amount }
        else { x with locked := true })) := by
  unfold withdraw_from_account withdraw_core
  rw [h]
  split_ifs with hc <;> simp [insertFn, hc]

/-- A concrete account book for exercising C2: client 1 holds exactly 5. -/
def c2Clients : Clients := insertFn (fun _ => none) 1 ⟨1, 5, 0, 5, false⟩

/-- Witness for C2 at the boundary case of spec scenario 3: withdrawing
6 from an account holding 5 fails and locks the account. -/
theorem c2_witness :
    withdraw_from_account c2Clients ⟨"withdrawal", 1, 6, false, false⟩ =
      some (insertFn c2Clients 1 ⟨1, 5, 0, 5, true⟩) := by
  have h := c2_withdrawal_strict_and_punitive_lock c2Clients
    ⟨"withdrawal", 1, 6, false, false⟩ ⟨1, 5, 0, 5, false⟩ rfl
  rw [h]
  norm_num

/-- C4: a dispute leaves both maps completely unchanged when the
transaction id is unknown, the client does not match, the record is not
a deposit, the record is already disputed or charged back, or the owning
account does not exist; on success it moves the amount from `available`
to `held` and marks the record disputed; and a second identical dispute
straight after a successful one is a no-op. -/
theorem c4_dispute_rejections_and_effect (clients : Clients) (records : Ledger)
    (tid cid : Nat) :
    (records tid = none → submit_dispute clients records tid cid = (clients, records)) ∧
    (∀ r, records tid = some r →
      cid ≠ r.client_id ∨ r.transaction_type ≠ "deposit" ∨ r.disputed = true ∨
        r.locked = true ∨ clients r.client_id = none →
      submit_dispute clients records tid cid = (clients, records)) ∧
    (∀ r x, records tid = some r → cid = r.client_id →
      r.transaction_type = "deposit" → r.disputed = false → r.locked = false →
      clients r.client_id = some x →
      submit_dispute clients records tid cid =
        (insertFn clients r.client_id
           { x with available := x.available - r.amount, held := x.held + r.amount },
         insertFn records tid { r with disputed := true })) ∧
    (∀ r x, records tid = some r → cid = r.client_id →
      r.transaction_type = "deposit" → r.disputed = false → r.locked = false →
      clients r.client_id = some x →
      submit_dispute (submit_dispute clients records tid cid).1
          (submit_dispute clients records tid cid).2 tid cid =
        submit_dispute clients records tid cid) := by
  refine ⟨?_, ?_, ?_, ?_⟩
  · intro h
    simp [submit_dispute, h]
  · intro r hr hfail
    rcases hfail with hf | hf | hf | hf | hf
    · simp [submit_dispute, hr, hf]
    · simp [submit_dispute, hr, hf]
    · rcases hx : clients r.client_id with _ | x <;>
        simp [submit_dispute, hr, hf, hx]
    · rcases hx : clients r.client_id with _ | x <;>
        simp [submit_dispute, hr, hf, hx]
    · simp [submit_dispute, hr, hf]
  · intro r x hr hcid hty hd hl hx
    simp [submit_dispute, hr, hcid, hty, hd, hl, hx]
  · intro r x hr hcid hty hd hl hx
    simp [submit_dispute, hr, hcid, hty, hd, hl, hx, insertFn]

/-- Concrete maps for exercising C4: client 1 holds 5 from deposit tx 1. -/
def c4Clients : Clients := insertFn (fun _ => none) 1 ⟨1, 5, 0, 5, false⟩

/-- Concrete ledger for exercising C4. -/
def c4Records : Ledger := insertFn (fun _ => none) 1 ⟨"deposit", 1, 5, false, false⟩

/-- Witness for C4: the success branch at spec scenario 4 (deposit 5,
then dispute it), moving 5 from available to held. -/
theorem c4_witness :
    submit_dispute c4Clients c4Records 1 1 =
      (insertFn c4Clients 1 ⟨1, 5 - 5, 0 + 5, 5, false⟩,
       insertFn c4Records 1 ⟨"deposit", 1, 5, true, false⟩) := by
  have h := (c4_dispute_rejections_and_effect c4Clients c4Records 1 1).2.2.1
    ⟨"deposit", 1, 5, false, false⟩ ⟨1, 5, 0, 5, false⟩ rfl rfl rfl rfl rfl rfl
  rw [h]

/-- C5: a chargeback against an undisputed record (or a non-deposit
record) changes nothing; on success it removes the amount from `held`
and `total`, locks the account, and marks the record
`disputed = false, locked = true`; from then on, as long as the ledger
holds that terminal record under the id, no dispute, resolve or
chargeback referencing it (by any client) changes anything. -/
theorem c5_chargeback_requires_dispute_and_is_terminal (clients : Clients)
    (records : Ledger) (tid cid : Nat) :
    (∀ r, records tid = some r → r.disputed = false ∨ r.transaction_type ≠ "deposit" →
      issue_chargeback clients records tid cid = (clients, records)) ∧
    (∀ r x, records tid = some r → cid = r.client_id →
      r.transaction_type = "deposit" → r.disputed = true →
      clients r.client_id = some x →
      issue_chargeback clients records tid cid =
        (insertFn clients r.client_id
           { x with total := x.total - r.amount, held := x.held - r.amount,
                    locked := true },
         insertFn records tid { r with disputed := false, locked := true })) ∧
    (∀ r x, records tid = some r → cid = r.client_id →
      r.transaction_type = "deposit" → r.disputed = true →
      clients r.client_id = some x →
      (issue_chargeback clients records tid cid).2 tid =
        some { r with disputed := false, locked := true }) ∧
    (∀ (cl : Clients) (rs : Ledger) (cid2 : Nat) (r2 : Record),
      rs tid = some r2 → r2.disputed = false → r2.locked = true →
      submit_dispute cl rs tid cid2 = (cl, rs) ∧
      resolve_dispute cl rs tid cid2 = (cl, rs) ∧
      issue_chargeback cl rs tid cid2 = (cl, rs)) := by
  refine ⟨?_, ?_, ?_, ?_⟩
  · intro r hr hfail
    rcases hfail with hf | hf <;>
      rcases hx : clients r.client_id with _ | x <;>
        simp [issue_chargeback, hr, hf, hx]
  · intro r x hr hcid hty hd hx
    simp [issue_chargeback, hr, hcid, hty, hd, hx]
  · intro r x hr hcid hty hd hx
    simp [issue_chargeback, hr, hcid, hty, hd, hx, insertFn]
  · intro cl rs cid2 r2 hr2 hd2 hl2
    refine ⟨?_, ?_, ?_⟩
    · rcases hx : cl r2.client_id with _ | x <;>
        simp [submit_dispute, hr2, hd2, hl2, hx]
    · rcases hx : cl r2.client_id with _ | x <;>
        simp [resolve_dispute, hr2, hd2, hl2, hx]
    · rcases hx : cl r2.client_id with _ | x <;>
        simp [issue_chargeback, hr2, hd2, hl2, hx]

/-- Concrete account book for exercising C5: client 1 with 5 held under
dispute. -/
def c5Clients : Clients := insertFn (fun _ => none) 1 ⟨1, 0, 5, 5, false⟩

/-- Concrete ledger for exercising C5: deposit tx 1 currently disputed. -/
def c5Records : Ledger := insertFn (fun _ => none) 1 ⟨"deposit", 1, 5, true, false⟩

/-- Witness for C5: the success branch at spec scenario 6 (deposit 5,
dispute, chargeback): held and total drop to 0, the account locks, and
the record becomes terminal. -/
theorem c5_witness :
    issue_chargeback c5Clients c5Records 1 1 =
      (insertFn c5Clients 1 ⟨1, 0, 5 - 5, 5 - 5, true⟩,
       insertFn c5Records 1 ⟨"deposit", 1, 5, false, true⟩) := by
  have h := (c5_chargeback_requires_dispute_and_is_terminal c5Clients c5Records 1 1).2.1
    ⟨"deposit", 1, 5, true, false⟩ ⟨1, 0, 5, 5, false⟩ rfl rfl rfl rfl rfl
  rw [h]

/-! ## The balance invariant (C1) -/

/-- The spec invariant for one account: `total == available + held`. -/
def balancedClient (x : Client) : Prop := x.total = x.available + x.held

/-- The invariant over the whole account book. -/
def balancedBook (clients : Clients) : Prop :=
  ∀ c x, clients c = some x → balancedClient x

theorem balancedBook_insert {clients : Clients} {k : Nat} {v : Client}
    (hb : balancedBook clients) (hv : balancedClient v) :
    balancedBook (insertFn clients k v) := by
  intro c x hx
  by_cases h : c = k
  · simp [insertFn, h] at hx
    exact hx ▸ hv
  · simp [insertFn, h] at hx
    exact hb c x hx

theorem deposit_core_balanced {clients : Clients} {record : Record}
    (hb : balancedBook clients) : balancedBook (deposit_core clients record) := by
  rcases hx : clients record.client_id with _ | x
  · simp only [deposit_core, hx]
    exact balancedBook_insert hb (by simp [balancedClient])
  · simp only [deposit_core, hx]
    split_ifs with h
    · refine balancedBook_insert hb ?_
      have hxb := hb _ _ hx
      simp only [balancedClient] at hxb ⊢
      rw [hxb]; ring
    · exact hb

theorem withdraw_core_balanced {clients : Clients} {record : Record}
    (hb : balancedBook clients) : balancedBook (withdraw_core clients record) := by
  rcases hx : clients record.client_id with _ | x
  · simp only [withdraw_core, hx]
    exact hb
  · have hxb := hb _ _ hx
    simp only [withdraw_core, hx]
    split_ifs with h
    · refine balancedBook_insert hb ?_
      simp only [balancedClient] at hxb ⊢
      rw [hxb]; ring
    · exact balancedBook_insert hb hxb

theorem submit_dispute_balanced {clients : Clients} {records : Ledger}
    {tid cid : Nat} (hb : balancedBook clients) :
    balancedBook (submit_dispute clients records tid cid).1 := by
  rcases hr : records tid with _ | r
  · simp only [submit_dispute, hr]
    exact hb
  · rcases hx : clients r.client_id with _ | x
    · simp only [submit_dispute, hr, hx]
      split_ifs <;> exact hb
    · simp only [submit_dispute, hr, hx]
      split_ifs with h1 h2 h3
      · refine balancedBook_insert hb ?_
        have hxb := hb _ _ hx
        simp only [balancedClient] at hxb ⊢
        rw [hxb]; ring
      all_goals exact hb

theorem resolve_dispute_balanced {clients : Clients} {records : Ledger}
    {tid cid : Nat} (hb : balancedBook clients) :
    balancedBook (resolve_dispute clients records tid cid).1 := by
  rcases hr : records tid with _ | r
  · simp only [resolve_dispute, hr]
    exact hb
  · rcases hx : clients r.client_id with _ | x
    · simp only [resolve_dispute, hr, hx]
      split_ifs <;> exact hb
    · simp only [resolve_dispute, hr, hx]
      split_ifs with h1 h2 h3
      · refine balancedBook_insert hb ?_
        have hxb := hb _ _ hx
        simp only [balancedClient] at hxb ⊢
        rw [hxb]; ring
      all_goals exact hb

theorem issue_chargeback_balanced {clients : Clients} {records : Ledger}
    {tid cid : Nat} (hb : balancedBook clients) :
    balancedBook (issue_chargeback clients records tid cid).1 := by
  rcases hr : records tid with _ | r
  · simp only [issue_chargeback, hr]
    exact hb
  · rcases hx : clients r.client_id with _ | x
    · simp only [issue_chargeback, hr, hx]
      split_ifs <;> exact hb
    · simp only [issue_chargeback, hr, hx]
      split_ifs with h1 h2 h3
      · refine balancedBook_insert hb ?_
        have hxb := hb _ _ hx
        simp only [balancedClient] at hxb ⊢
        rw [hxb]; ring
      all_goals exact hb

theorem deposit_to_account_eq {clients : Clients} {record : Record} {c : Clients}
    (h : deposit_to_account clients record = some c) :
    c = deposit_core clients record := by
  unfold deposit_to_account at h
  rcases hm : deposit_core clients record record.client_id with _ | x <;>
    simp [hm] at h
  exact h.symm

theorem withdraw_from_account_eq {clients : Clients} {record : Record} {c : Clients}
    (h : withdraw_from_account clients record = some c) :
    c = withdraw_core clients record := by
  unfold withdraw_from_account at h
  rcases hm : withdraw_core clients record record.client_id with _ | x <;>
    simp [hm] at h
  exact h.symm

theorem processRow_balanced {s : EngineState} {row : InputRow} {s1 : EngineState}
    (h : processRow s row = some s1) (hb : balancedBook s.clients) :
    balancedBook s1.clients := by
  by_cases h1 : row.transaction_type = "deposit"
  · simp [processRow, h1, insertFn, Option.map_eq_some'] at h
    rcases h with ⟨c, hd, hc⟩
    rw [← hc]
    show balancedBook c
    rw [deposit_to_account_eq hd]
    exact deposit_core_balanced hb
  · by_cases h2 : row.transaction_type = "withdrawal"
    · simp [processRow, h1, h2, insertFn, Option.map_eq_some'] at h
      rcases h with ⟨c, hd, hc⟩
      rw [← hc]
      show balancedBook c
      rw [withdraw_from_account_eq hd]
      exact withdraw_core_balanced hb
    · by_cases h3 : row.transaction_type = "dispute"
      · simp [processRow, h1, h2, h3] at h
        rw [← h]
        exact submit_dispute_balanced hb
      · by_cases h4 : row.transaction_type = "resolve"
        · simp [processRow, h1, h2, h3, h4] at h
          rw [← h]
          exact resolve_dispute_balanced hb
        · by_cases h5 : row.transaction_type = "chargeback"
          · simp [processRow, h1, h2, h3, h4, h5] at h
            rw [← h]
            exact issue_chargeback_balanced hb
          · simp [processRow, h1, h2, h3, h4, h5] at h

theorem processRows_balanced {s : EngineState} {rows : List InputRow}
    {s1 : EngineState} (h : processRows s rows = some s1)
    (hb : balancedBook s.clients) : balancedBook s1.clients := by
  induction rows generalizing s with
  | nil =>
    simp [processRows] at h
    exact h ▸ hb
  | cons row rest ih =>
    simp only [processRows] at h
    rcases hp : processRow s row with _ | s2 <;> rw [hp] at h <;> simp at h
    exact ih h (processRow_balanced hp hb)

/-- C1: starting from the empty account book, after any prefix of rows
that the program processes without aborting, every account satisfies
`total = available + held` exactly. (Every intermediate state of a run
is `processRows initState rows` for the prefix `rows` processed so
far, so this covers the state after each processed transaction.) -/
theorem c1_total_eq_available_plus_held (rows : List InputRow) (s1 : EngineState)
    (h : processRows initState rows = some s1) :
    ∀ c x, s1.clients c = some x → x.total = x.available + x.held := by
  have hb : balancedBook initState.clients := by
    intro c x hx
    simp [initState] at hx
  exact processRows_balanced h hb

/-- Rows for the C1 witness: spec scenario 4. -/
def c1Rows : List InputRow := [⟨"deposit", 1, 1, 5⟩]

/-- The state after processing `c1Rows`. -/
def c1Final : EngineState :=
  ⟨insertFn (fun _ => none) 1 ⟨"deposit", 1, 5, false, false⟩,
   insertFn (fun _ => none) 1 ⟨1, 5, 0, 5, false⟩⟩

/-- Witness for C1 on a concrete run: the account created by the single
deposit of `c1Rows` is balanced. -/
theorem c1_witness :
    (⟨1, 5, 0, 5, false⟩ : Client).total =
      (⟨1, 5, 0, 5, false⟩ : Client).available + (⟨1, 5, 0, 5, false⟩ : Client).held :=
  c1_total_eq_available_plus_held c1Rows c1Final rfl 1 ⟨1, 5, 0, 5, false⟩ rfl

/-! ## Lock persistence and its consequences (C6) -/

/-- The three balances of client `c`: (available, held, total). -/
def balancesAt (clients : Clients) (c : Nat) : Option (ℚ × ℚ × ℚ) :=
  (clients c).map (fun x => (x.available, x.held, x.total))

/-- Client `c` has an account and it is locked. -/
def lockedAt (clients : Clients) (c : Nat) : Prop :=
  ∃ x, clients c = some x ∧ x.locked = true

theorem lockedAt_insertFn_ne {clients : Clients} {k c : Nat} {v : Client}
    (hck : c ≠ k) (h : lockedAt clients c) : lockedAt (insertFn clients k v) c := by
  rcases h with ⟨y, hy, hyl⟩
  exact ⟨y, by simp [insertFn, hck, hy], hyl⟩

theorem deposit_core_lockedAt {clients : Clients} {record : Record} {c : Nat}
    (h : lockedAt clients c) : lockedAt (deposit_core clients record) c := by
  by_cases hck : c = record.client_id
  · rcases h with ⟨y, hy, hyl⟩
    subst hck
    simp only [deposit_core, hy, hyl]
    simp only [Bool.true_eq_false, if_false]
    exact ⟨y, hy, hyl⟩
  · rcases hx : clients record.client_id with _ | x <;>
      simp only [deposit_core, hx]
    · exact lockedAt_insertFn_ne hck h
    · split_ifs with hf
      · exact lockedAt_insertFn_ne hck h
      · exact h

theorem withdraw_core_lockedAt {clients : Clients} {record : Record} {c : Nat}
    (h : lockedAt clients c) : lockedAt (withdraw_core clients record) c := by
  by_cases hck : c = record.client_id
  · rcases h with ⟨y, hy, hyl⟩
    subst hck
    simp only [withdraw_core, hy, hyl]
    simp only [Bool.true_eq_false, and_false, if_false]
    exact ⟨{ y with locked := true }, by simp [insertFn], rfl⟩
  · rcases hx : clients record.client_id with _ | x <;>
      simp only [withdraw_core, hx]
    · exact h
    · split_ifs with hf <;> exact lockedAt_insertFn_ne hck h

theorem submit_dispute_lockedAt {clients : Clients} {records : Ledger}
    {tid cid c : Nat} (h : lockedAt clients c) :
    lockedAt (submit_dispute clients records tid cid).1 c := by
  rcases hr : records tid with _ | r
  · simp only [submit_dispute, hr]
    exact h
  · by_cases hck : c = r.client_id
    · rcases h with ⟨y, hy, hyl⟩
      subst hck
      simp only [submit_dispute, hr, hy]
      split_ifs with h1 h2 h3
      · exact ⟨{ y with available := y.available - r.amount, held := y.held + r.amount }, by simp [insertFn], hyl⟩
      all_goals exact ⟨y, hy, hyl⟩
    · rcases hx : clients r.client_id with _ | x <;>
        simp only [submit_dispute, hr, hx] <;>
        split_ifs <;>
        first
          | exact h
          | exact lockedAt_insertFn_ne hck h

theorem resolve_dispute_lockedAt {clients : Clients} {records : Ledger}
    {tid cid c : Nat} (h : lockedAt clients c) :
    lockedAt (resolve_dispute clients records tid cid).1 c := by
  rcases hr : records tid with _ | r
  · simp only [resolve_dispute, hr]
    exact h
  · by_cases hck : c = r.client_id
    · rcases h with ⟨y, hy, hyl⟩
      subst hck
      simp only [resolve_dispute, hr, hy]
      split_ifs with h1 h2 h3
      · exact ⟨{ y with available := y.available + r.amount, held := y.held - r.amount }, by simp [insertFn], hyl⟩
      all_goals exact ⟨y, hy, hyl⟩
    · rcases hx : clients r.client_id with _ | x <;>
        simp only [resolve_dispute, hr, hx] <;>
        split_ifs <;>
        first
          | exact h
          | exact lockedAt_insertFn_ne hck h

theorem issue_chargeback_lockedAt {clients : Clients} {records : Ledger}
    {tid cid c : Nat} (h : lockedAt clients c) :
    lockedAt (issue_chargeback clients records tid cid).1 c := by
  rcases hr : records tid with _ | r
  · simp only [issue_chargeback, hr]
    exact h
  · by_cases hck : c = r.client_id
    · rcases h with ⟨y, hy, hyl⟩
      subst hck
      simp only [issue_chargeback, hr, hy]
      split_ifs with h1 h2 h3
      · exact ⟨{ y with total := y.total - r.amount, held := y.held - r.amount, locked := true }, by simp [insertFn], rfl⟩
      all_goals exact ⟨y, hy, hyl⟩
    · rcases hx : clients r.client_id with _ | x <;>
        simp only [issue_chargeback, hr, hx] <;>
        split_ifs <;>
        first
          | exact h
          | exact lockedAt_insertFn_ne hck h

theorem processRow_lockedAt {s : EngineState} {row : InputRow} {s1 : EngineState}
    {c : Nat} (h : processRow s row = some s1) (hl : lockedAt s.clients c) :
    lockedAt s1.clients c := by
  by_cases h1 : row.transaction_type = "deposit"
  · simp [processRow, h1, insertFn, Option.map_eq_some'] at h
    rcases h with ⟨cl, hd, hc⟩
    rw [← hc]
    show lockedAt cl c
    rw [deposit_to_account_eq hd]
    exact deposit_core_lockedAt hl
  · by_cases h2 : row.transaction_type = "withdrawal"
    · simp [processRow, h1, h2, insertFn, Option.map_eq_some'] at h
      rcases h with ⟨cl, hd, hc⟩
      rw [← hc]
      show lockedAt cl c
      rw [withdraw_from_account_eq hd]
      exact withdraw_core_lockedAt hl
    · by_cases h3 : row.transaction_type = "dispute"
      · simp [processRow, h1, h2, h3] at h
        rw [← h]
        exact submit_dispute_lockedAt hl
      · by_cases h4 : row.transaction_type = "resolve"
        · simp [processRow, h1, h2, h3, h4] at h
          rw [← h]
          exact resolve_dispute_lockedAt hl
        · by_cases h5 : row.transaction_type = "chargeback"
          · simp [processRow, h1, h2, h3, h4, h5] at h
            rw [← h]
            exact issue_chargeback_lockedAt hl
          · simp [processRow, h1, h2, h3, h4, h5] at h

theorem processRows_lockedAt {s : EngineState} {rows : List InputRow}
    {s1 : EngineState} {c : Nat} (h : processRows s rows = some s1)
    (hl : lockedAt s.clients c) : lockedAt s1.clients c := by
  induction rows generalizing s with
  | nil =>
    simp [processRows] at h
    exact h ▸ hl
  | cons row rest ih =>
    simp only [processRows] at h
    rcases hp : processRow s row with _ | s2 <;> rw [hp] at h <;> simp at h
    exact ih h (processRow_lockedAt hp hl)

theorem processRow_locked_balances {s : EngineState} {row : InputRow}
    {s1 : EngineState} {c : Nat} (h : processRow s row = some s1)
    (hty : row.transaction_type = "deposit" ∨ row.transaction_type = "withdrawal")
    (hc : row.client_id = c) (hl : lockedAt s.clients c) :
    balancesAt s1.clients c = balancesAt s.clients c := by
  rcases hl with ⟨y, hy, hyl⟩
  subst hc
  rcases hty with h1 | h1
  · simp [processRow, h1, insertFn, Option.map_eq_some'] at h
    rcases h with ⟨cl, hd, hcs⟩
    rw [← hcs]
    show balancesAt cl row.client_id = _
    rw [deposit_to_account_eq hd]
    have hdc : deposit_core s.clients
        ⟨"deposit", row.client_id, row.amount, false, false⟩ = s.clients := by
      simp [deposit_core, hy, hyl]
    rw [hdc]
  · simp [processRow, h1, insertFn, Option.map_eq_some'] at h
    rcases h with ⟨cl, hd, hcs⟩
    rw [← hcs]
    show balancesAt cl row.client_id = _
    rw [withdraw_from_account_eq hd]
    have hwc : withdraw_core s.clients
        ⟨"withdrawal", row.client_id, row.amount, false, false⟩ =
        insertFn s.clients row.client_id { y with locked := true } := by
      simp [withdraw_core, hy, hyl]
    rw [hwc]
    simp [balancesAt, insertFn, hy]

/-- C6: once client `c`'s account is locked, then after any further
processing, one more deposit or withdrawal row for `c` leaves `c`'s
available, held and total balances exactly as they were (a deposit on a
locked account is ignored; a failed withdrawal only re-sets the lock
flag). -/
theorem c6_locked_account_balances_frozen (s : EngineState) (c : Nat)
    (hl : lockedAt s.clients c) (rows : List InputRow) (s1 : EngineState)
    (h : processRows s rows = some s1) (row : InputRow)
    (hty : row.transaction_type = "deposit" ∨ row.transaction_type = "withdrawal")
    (hc : row.client_id = c) (s2 : EngineState) (h2 : processRow s1 row = some s2) :
    balancesAt s2.clients c = balancesAt s1.clients c :=
  processRow_locked_balances h2 hty hc (processRows_lockedAt h hl)

/-- Concrete start state for the C6 witness: client 1 locked with
balances (3, 0, 3). -/
def c6Start : EngineState :=
  ⟨fun _ => none, insertFn (fun _ => none) 1 ⟨1, 3, 0, 3, true⟩⟩

/-- The state after a deposit of 2 (tx 7) for locked client 1: the row
is recorded in the ledger but the balances are unchanged. -/
def c6After : EngineState :=
  ⟨insertFn (fun _ => none) 7 ⟨"deposit", 1, 2, false, false⟩,
   insertFn (fun _ => none) 1 ⟨1, 3, 0, 3, true⟩⟩

/-- Witness for C6 at a concrete locked account and deposit row. -/
theorem c6_witness :
    balancesAt c6After.clients 1 = balancesAt c6Start.clients 1 :=
  c6_locked_account_balances_frozen c6Start 1
    ⟨⟨1, 3, 0, 3, true⟩, rfl, rfl⟩ [] c6Start rfl
    ⟨"deposit", 1, 7, 2⟩ (Or.inl rfl) rfl c6After rfl

/-! ## Output rounding (C7) -/

/-- Round half to even to the nearest integer: the `MidpointNearestEven`
strategy that `Decimal::round_dp` applies by default. -/
def roundHalfEven (q : ℚ) : ℤ :=
  if q - ⌊q⌋ < 1 / 2 then ⌊q⌋
  else if 1 / 2 < q - ⌊q⌋ then ⌊q⌋ + 1
  else if ⌊q⌋ % 2 = 0 then ⌊q⌋ else ⌊q⌋ + 1

/-- `Decimal::round_dp(dp)`: round to `dp` fractional digits, half to
even, as `round_serialize` does with `dp = 4`. -/
def round_dp (dp : Nat) (q : ℚ) : ℚ := (roundHalfEven (q * 10 ^ dp) : ℚ) / 10 ^ dp

/-- A superset of the values an `f32` can hold: `m * 2^e` or `m / 2^e`
with `|m| < 2^24` (binary32 has a 24-bit significand; the exponent
range does not matter for the argument). `round_serialize` passes the
rounded decimal through `to_f32` into `serialize_f32`, so every value
it can emit lies in this set (or is the `-1.0` fallback, also in it). -/
def F32Representable (q : ℚ) : Prop :=
  ∃ (m : ℤ) (e : ℕ), m.natAbs < 2 ^ 24 ∧ (q = (m : ℚ) * 2 ^ e ∨ q * 2 ^ e = (m : ℚ))

/-- C7 (code bug): `round_serialize` rounds to 4 digits half to even
(`round_dp(4)`) but then converts through `f32`. The value 16777217
(= 2^24 + 1) is reachable as an exact account balance by a single
deposit, is its own rounding to 4 digits, and is not representable in
`f32`, so the emitted value cannot equal the exact decimal rounded to
4 fractional digits, contradicting the claim. -/
theorem c7_round_then_f32_loses_exactness :
    round_dp 4 16777217 = 16777217 ∧
    ¬ F32Representable 16777217 ∧
    (processRows initState [⟨"deposit", 1, 1, 16777217⟩]).map
        (fun s => (s.clients 1).map (fun x => x.available)) =
      some (some 16777217) := by
  refine ⟨?_, ?_, ?_⟩
  · norm_num [round_dp, roundHalfEven]
  · rintro ⟨m, e, hm, h | h⟩
    · have h' : (16777217 : ℤ) = m * 2 ^ e := by exact_mod_cast h
      norm_num at hm
      rcases Nat.eq_zero_or_pos e with he | he
      · subst he
        simp at h'
        omega
      · obtain ⟨k, hk⟩ := Nat.exists_eq_add_of_le he
        have h2 : (2 : ℤ) ∣ 16777217 := ⟨m * 2 ^ k, by
          rw [h', hk]
          ring⟩
        norm_num at h2
    · have h' : (16777217 : ℤ) * 2 ^ e = m := by exact_mod_cast h
      have h2 : (1 : ℤ) ≤ 2 ^ e := by
        have : (1 : ℕ) ≤ 2 ^ e := Nat.one_le_two_pow
        exact_mod_cast this
      have h3 : (16777217 : ℤ) ≤ m := by nlinarith
      norm_num at hm
      omega
  · norm_num +decide [processRows, processRow, deposit_to_account, deposit_core,
      withdraw_from_account, withdraw_core, submit_dispute, resolve_dispute,
      issue_chargeback, insertFn, initState]

end PaymentEngine
